import Mathlib

/-!
Verification development for the PharmAssist backend core:
the pagination-driven catalog client (`unifiedProductsService.ts`),
the batch ingestor (`ingestorService.ts`), the vector-store adapter
(`qdrantService.ts`) and the retrieval/filter/sort layer
(`retrievalService.ts`), shallowly embedded in Lean.

External effects (HTTP page fetches, embedding calls, vector-store
upserts and searches) are modelled as explicit oracle parameters of
type `Except String _`: an `Except.error` value models the awaited
promise rejecting with that message, an `Except.ok` value models it
resolving.  Wall-clock reads (`Date.now()`, `new Date().toISOString()`)
are modelled as frozen parameters `t0 : Nat` and `nowIso : String`.
JavaScript numbers are modelled as rationals (`Rat`); the `NaN` results
of `parseInt`/`parseFloat` are modelled as `Option.none`.
-/

/-- Value of a loosely-typed JS field that the API may deliver as a
string, as a number, or not at all (`price`, `quantity` are typed
`string | number` in `unifiedProductsService.ts`). -/
inductive JSVal where
  | str (s : String)
  | num (q : Rat)
  | undef
deriving DecidableEq, Repr

/-- Digit string to natural number, most significant digit first. -/
def natOfDigits (ds : List Char) : Nat :=
  ds.foldl (fun acc c => 10 * acc + (c.toNat - '0'.toNat)) 0

/-- Optional leading sign of a JS numeric literal: returns
(is-negative, remaining characters). -/
def parseSign (cs : List Char) : Bool × List Char :=
  match cs with
  | [] => (false, [])
  | c :: r => if c = '-' then (true, r) else if c = '+' then (false, r) else (false, c :: r)

/-- `parseInt(s, 10)` on a character list: skip whitespace, optional
sign, then the longest run of decimal digits; `none` models `NaN`
(no digits found).  JS WhiteSpace is abstracted to `Char.isWhitespace`. -/
def jsParseIntChars (cs : List Char) : Option Int :=
  let cs1 := cs.dropWhile Char.isWhitespace
  let sgn := parseSign cs1
  let ds := sgn.2.takeWhile Char.isDigit
  if ds.isEmpty then none
  else some ((if sgn.1 then -1 else 1) * (natOfDigits ds : Int))

/-- `parseInt(s, 10)` as called in `qdrantService.ts` (`addChunk`). -/
def jsParseInt (s : String) : Option Int := jsParseIntChars s.data

/-- `parseFloat(s)` on a character list: whitespace, optional sign,
decimal digits, optional fraction, optional exponent; `none` models
`NaN`.  (The `Infinity` literal is not produced by this codebase and
is left out of the model.) -/
def jsParseFloatChars (cs : List Char) : Option Rat :=
  let cs1 := cs.dropWhile Char.isWhitespace
  let sgn := parseSign cs1
  let intDs := sgn.2.takeWhile Char.isDigit
  let cs3 := sgn.2.dropWhile Char.isDigit
  let fracDs :=
    match cs3 with
    | '.' :: r => r.takeWhile Char.isDigit
    | _ => []
  let cs4 :=
    match cs3 with
    | '.' :: r => r.dropWhile Char.isDigit
    | _ => cs3
  if intDs.isEmpty && fracDs.isEmpty then none
  else
    let f := fracDs.length
    let mantNum : Int := (natOfDigits intDs * 10 ^ f + natOfDigits fracDs : Nat)
    let sNum : Int := if sgn.1 then -mantNum else mantNum
    let e : Int :=
      match cs4 with
      | c :: r =>
        if c = 'e' ∨ c = 'E' then
          let esgn := parseSign r
          let eDs := esgn.2.takeWhile Char.isDigit
          if eDs.isEmpty then 0
          else (if esgn.1 then -1 else 1) * (natOfDigits eDs : Int)
        else 0
      | [] => 0
    if 0 ≤ e then
      some (Rat.divInt (sNum * ((10 ^ e.toNat : Nat) : Int)) ((10 ^ f : Nat) : Int))
    else
      some (Rat.divInt sNum (((10 ^ f : Nat) : Int) * ((10 ^ (-e).toNat : Nat) : Int)))

/-- `parseFloat` on a string. -/
def jsParseFloat (s : String) : Option Rat := jsParseFloatChars s.data

/-- `x || 0` on a (non-NaN) JS number: `0` is falsy, everything else
passes through — the identity on rationals. -/
def jsOrZero (q : Rat) : Rat := if q = 0 then 0 else q

/-- `s || d` on JS strings: the empty string is falsy. -/
def jsOrStr (s d : String) : String := if s = "" then d else s

/-- Raw product record from the catalog API (`UnifiedProduct` in
`unifiedProductsService.ts`).  `category_id` is declared `number` by
the source interface and is modelled as an integer (for integers,
`parseInt(String(n), 10)` is the identity). -/
structure Product where
  product_name : String
  price : JSVal
  quantity : JSVal
  category_name : String
  category_slug : String
  category_id : Int
  price_updated_at : Option String
deriving DecidableEq, Repr

/-- `formatProductForEmbedding` (`unifiedProductsService.ts`): the
trimmed template literal over the product fields.  JS rendering of
numbers inside the template is abstracted by `toString` on `Rat`;
the retrieval claims treat this text opaquely. -/
def jsDisplay : JSVal → String
  | .str s => s
  | .num q => toString q
  | .undef => "undefined"

def formatProductForEmbedding (p : Product) : String :=
  "Product: " ++ p.product_name ++
  "\n      Category: " ++ p.category_name ++
  "\n      Price: " ++ jsDisplay p.price ++
  "\n      Quantity Available: " ++ jsDisplay p.quantity ++
  "\n      Last Updated: " ++ (match p.price_updated_at with
    | some s => s
    | none => "undefined")

/-! ## Catalog client: `getAllProducts` (`unifiedProductsService.ts`)

A run is determined by the sequence of page-fetch results: element `k`
of `pages` is the outcome of fetching page `k+1` (`Except.error`
covers a transport error, a timeout, and a `success: false` payload,
all of which throw inside the per-page `try`).  The end of the list
encodes a `null` `next_page_url` on the last page. -/

/-- The `while` loop of `getAllProducts`: `acc` is the mutable
`allProducts` array.  On a page error the loop sets
`hasNextPage = false` and returns what was accumulated; on a success
it appends `pageProducts.slice(0, remaining)` when `maxProducts` is
bounded and stops once the quota is reached. -/
def gapLoop (maxProducts : Nat) (acc : List Product) :
    List (Except String (List Product)) → List Product
  | [] => acc
  | .error _ :: _ => acc
  | .ok pg :: rest =>
    let acc2 := if maxProducts > 0 then acc ++ pg.take (maxProducts - acc.length) else acc ++ pg
    if maxProducts > 0 ∧ maxProducts ≤ acc2.length then acc2
    else gapLoop maxProducts acc2 rest

/-- `getAllProducts(maxProducts)` (`unifiedProductsService.ts`,
lines 55–112): `maxProducts = 0` means unlimited. -/
def getAllProducts (maxProducts : Nat)
    (pages : List (Except String (List Product))) : List Product :=
  gapLoop maxProducts [] pages

/-- On an all-successful run of pages, the bounded loop returns exactly
the `K`-prefix of the accumulator followed by the concatenated pages. -/
theorem gapLoop_ok_bounded (K : Nat) (hK : 0 < K) :
    ∀ (ps : List (List Product)) (acc : List Product), acc.length < K →
      gapLoop K acc (ps.map Except.ok) = (acc ++ ps.flatten).take K := by
  intro ps
  induction ps with
  | nil =>
    intro acc hacc
    simp [gapLoop, List.take_of_length_le (Nat.le_of_lt hacc)]
  | cons pg rest ih =>
    intro acc hacc
    simp only [List.map_cons, gapLoop]
    rw [if_pos hK]
    by_cases hstop : K ≤ (acc ++ pg.take (K - acc.length)).length
    · rw [if_pos ⟨hK, hstop⟩]
      have hrem : K - acc.length ≤ pg.length := by
        have := hstop
        simp only [List.length_append, List.length_take] at this
        omega
      rw [List.flatten_cons, List.take_append_eq_append_take,
        List.take_of_length_le (Nat.le_of_lt hacc), List.take_append_eq_append_take]
      have h1 : K - acc.length - pg.length = 0 := by omega
      rw [h1, List.take_zero, List.append_nil]
    · rw [if_neg (fun hc => hstop hc.2)]
      have hlt : (acc ++ pg.take (K - acc.length)).length < K := by omega
      have hrem : pg.length < K - acc.length := by
        have := hlt
        simp only [List.length_append, List.length_take] at this
        omega
      rw [ih _ hlt, List.take_of_length_le (Nat.le_of_lt hrem)]
      simp [List.append_assoc]

/-- With a positive bound, the accumulated list never exceeds the bound. -/
theorem gapLoop_length_le (K : Nat) (hK : 0 < K) :
    ∀ (pages : List (Except String (List Product))) (acc : List Product),
      acc.length ≤ K → (gapLoop K acc pages).length ≤ K := by
  intro pages
  induction pages with
  | nil => intro acc hacc; simpa [gapLoop] using hacc
  | cons pg rest ih =>
    intro acc hacc
    cases pg with
    | error m => simpa [gapLoop] using hacc
    | ok pg =>
      simp only [gapLoop]
      rw [if_pos hK]
      have hlen : (acc ++ pg.take (K - acc.length)).length ≤ K := by
        simp only [List.length_append, List.length_take]
        omega
      by_cases hstop : K ≤ (acc ++ pg.take (K - acc.length)).length
      · rw [if_pos ⟨hK, hstop⟩]; exact hlen
      · rw [if_neg (fun hc => hstop hc.2)]; exact ih _ hlen

/-- Everything from the first failing page onwards is never consumed:
the run on `good pages ++ failing page ++ anything` equals the run on
the good pages alone. -/
theorem gapLoop_stops_at_error (maxP : Nat) (m : String)
    (rest : List (Except String (List Product))) :
    ∀ (gs : List (List Product)) (acc : List Product),
      gapLoop maxP acc (gs.map Except.ok ++ Except.error m :: rest)
        = gapLoop maxP acc (gs.map Except.ok) := by
  intro gs
  induction gs with
  | nil => intro acc; rfl
  | cons pg gs ih =>
    intro acc
    simp only [List.map_cons, List.cons_append, gapLoop]
    by_cases hP : maxP > 0
    · rw [if_pos hP]
      by_cases hstop : maxP > 0 ∧ maxP ≤ (acc ++ pg.take (maxP - acc.length)).length
      · rw [if_pos hstop, if_pos hstop]
      · rw [if_neg hstop, if_neg hstop]; exact ih _
    · rw [if_neg hP]
      have hc : ¬(maxP > 0 ∧ maxP ≤ (acc ++ pg).length) := fun h => hP h.1
      rw [if_neg hc, if_neg hc]
      exact ih _

/-- Unbounded all-successful pagination concatenates every page. -/
theorem gapLoop_unbounded_ok :
    ∀ (gs : List (List Product)) (acc : List Product),
      gapLoop 0 acc (gs.map Except.ok) = acc ++ gs.flatten := by
  intro gs
  induction gs with
  | nil => intro acc; simp [gapLoop]
  | cons pg gs ih =>
    intro acc
    simp only [List.map_cons, gapLoop]
    rw [if_neg (by omega), if_neg (by omega), ih, List.flatten_cons, List.append_assoc]

/-- Concrete products used to instantiate hypotheses of the proved
claims on closed inputs. -/
def mkSample (name : String) (pr : Rat) : Product :=
  { product_name := name, price := .num pr, quantity := .num 1,
    category_name := "painkillers", category_slug := "painkillers",
    category_id := 1, price_updated_at := none }

/-- C2: with a positive bound `K` smaller than the total number of
records across the (all-successful) pages, `getAllProducts K` returns
exactly the first `K` records — the final page is truncated to fill
the remaining quota, never discarded — and no run of `getAllProducts`
with bound `K` ever returns more than `K` records. -/
theorem getAllProducts_bounded_exact (K : Nat) (ps : List (List Product))
    (hK : 0 < K) (hlt : K < ps.flatten.length) :
    getAllProducts K (ps.map Except.ok) = ps.flatten.take K ∧
    (getAllProducts K (ps.map Except.ok)).length = K ∧
    (∀ pages : List (Except String (List Product)),
      (getAllProducts K pages).length ≤ K) := by
  have h := gapLoop_ok_bounded K hK ps [] (by simpa using hK)
  refine ⟨by simpa [getAllProducts] using h, ?_, ?_⟩
  · rw [getAllProducts, h]
    simp only [List.nil_append, List.length_take]
    omega
  · intro pages
    exact gapLoop_length_le K hK pages [] (by simp)

/-- Closed instantiation of `getAllProducts_bounded_exact`: two pages
of two records with bound 3 yield the first three records. -/
theorem getAllProducts_bounded_exact_witness :
    getAllProducts 3
        (([[mkSample "ibuprofen" 10, mkSample "aspirin" 20],
           [mkSample "paracetamol" 30, mkSample "codeine" 40]]).map Except.ok)
      = [mkSample "ibuprofen" 10, mkSample "aspirin" 20, mkSample "paracetamol" 30] := by
  have h := getAllProducts_bounded_exact 3
    [[mkSample "ibuprofen" 10, mkSample "aspirin" 20],
     [mkSample "paracetamol" 30, mkSample "codeine" 40]]
    (by decide) (by decide)
  rw [h.1]
  rfl

/-- C3: if fetching page `k` fails (transport error, timeout or a
`success: false` payload all throw into the per-page catch), the run
returns exactly what pages `1..k-1` accumulated, without an exception:
the result equals the run on the good prefix alone, and in the
unbounded case it is precisely the concatenation of the good pages. -/
theorem getAllProducts_page_failure (maxP : Nat) (gs : List (List Product))
    (m : String) (rest : List (Except String (List Product))) :
    getAllProducts maxP (gs.map Except.ok ++ Except.error m :: rest)
      = getAllProducts maxP (gs.map Except.ok) ∧
    getAllProducts 0 (gs.map Except.ok ++ Except.error m :: rest) = gs.flatten := by
  constructor
  · exact gapLoop_stops_at_error maxP m rest gs []
  · rw [getAllProducts, gapLoop_stops_at_error 0 m rest gs []]
    simpa using gapLoop_unbounded_ok gs []

/-! ## Vector-store adapter: `addChunk` (`qdrantService.ts`)

`addChunk` validates that the point id parses as a number via
`parseInt(id, 10)` and throws `Invalid numeric ID` on `NaN`; otherwise
the outcome is that of the `upsert` call, supplied as an oracle. -/

def addChunk {α : Type} (id : String) (_embedding : List Rat) (_payload : α)
    (upsert : Except String Unit) : Except String Unit :=
  match jsParseInt id with
  | none => .error ("Invalid numeric ID: " ++ id)
  | some _ => upsert

/-! ## Batch ingestor (`ingestorService.ts`) -/

/-- Per-item outcome (`IngestResult` in `ingestorService.ts`). -/
structure IngestResult where
  id : String
  productName : String
  success : Bool
  message : String
deriving DecidableEq, Repr

/-- Batch summary (`BatchIngestResult` in `ingestorService.ts`). -/
structure BatchIngestResult where
  totalProducts : Nat
  successful : Nat
  failed : Nat
  results : List IngestResult
  message : String
deriving DecidableEq, Repr

/-- Normalized payload stored in the vector store by
`ingestAllProducts` (and, uncoerced, by `ingestProductByQuery`). -/
structure Payload where
  product_name : String
  price : Rat
  quantity : Rat
  category_name : String
  category_slug : String
  category_id : Int
  price_updated_at : String
  ingested_at : String
deriving DecidableEq, Repr

/-- `typeof price === 'string' ? parseFloat(price) : (price || 0)`
followed by `isNaN(price) ? 0 : price` (`ingestorService.ts`
line 256/261). -/
def coercePrice : JSVal → Rat
  | .str s =>
    match jsParseFloat s with
    | some q => q
    | none => 0
  | .num q => jsOrZero q
  | .undef => 0

/-- `typeof quantity === 'string' ? parseInt(quantity, 10) :
(quantity || 0)` followed by `isNaN(quantity) ? 0 : quantity`
(`ingestorService.ts` line 257/262). -/
def coerceQuantity : JSVal → Rat
  | .str s =>
    match jsParseInt s with
    | some n => (n : Rat)
    | none => 0
  | .num q => jsOrZero q
  | .undef => 0

/-- The payload object built for each record by `ingestAllProducts`
(lines 259–268): coerced price/quantity, stringified category fields,
`price_updated_at` defaulted to the current ISO timestamp. -/
def mkPayload (p : Product) (nowIso : String) : Payload :=
  { product_name := p.product_name
    price := coercePrice p.price
    quantity := coerceQuantity p.quantity
    category_name := p.category_name
    category_slug := p.category_slug
    category_id := p.category_id
    price_updated_at :=
      match p.price_updated_at with
      | some s => s
      | none => nowIso
    ingested_at := nowIso }

/-- Oracle environment for one batch run: `embedO i text` is the result
of the `i`-th `generateEmbedding` call on the formatted text, `storeO i`
the result of the `i`-th Qdrant `upsert`; `t0` is the frozen
`Date.now()` and `nowIso` the frozen ISO timestamp. -/
structure IngestEnv where
  embedO : Nat → String → Except String (List Rat)
  storeO : Nat → Except String Unit
  t0 : Nat
  nowIso : String

/-- One iteration of the ingestion loop body (lines 247–300):
format, embed, build payload, store; `Except.ok` carries the success
outcome pushed in the `try`, `Except.error` the failure outcome pushed
in the `catch`. -/
def processItem (env : IngestEnv) (i : Nat) (p : Product) :
    Except IngestResult IngestResult :=
  match env.embedO i (formatProductForEmbedding p) with
  | .error msg =>
    .error { id := "unknown_" ++ toString env.t0, productName := p.product_name,
             success := false, message := "Failed to ingest: " ++ msg }
  | .ok emb =>
    match addChunk (toString (env.t0 + i)) emb (mkPayload p env.nowIso) (env.storeO i) with
    | .error msg =>
      .error { id := "unknown_" ++ toString env.t0, productName := p.product_name,
               success := false, message := "Failed to ingest: " ++ msg }
    | .ok _ =>
      .ok { id := toString (env.t0 + i), productName := p.product_name,
            success := true, message := "Successfully ingested: " ++ p.product_name }

/-- Whether item `i` is ingested successfully. -/
def itemOk (env : IngestEnv) (i : Nat) (p : Product) : Bool :=
  match processItem env i p with
  | .ok _ => true
  | .error _ => false

/-- Observable scheduling events of the loop: the processing of item
`i`, and the 200 ms `setTimeout` delay awaited at lines 285–287. -/
inductive Event where
  | item (i : Nat)
  | delay
deriving DecidableEq, Repr

/-- Accumulated state of one batch run: the `results` array, the
`successCount` and `failureCount` counters, and the ordered trace of
item/delay events. -/
structure RunAcc where
  results : List IngestResult
  succ : Nat
  fail : Nat
  trace : List Event
deriving Repr

/-- The `for` loop of `ingestAllProducts` (lines 245–301), processing
the records starting at index `i`.  On success the 200 ms delay is
awaited only when more records remain (`i < allProducts.length - 1`,
i.e. the rest is nonempty); the `catch` branch pushes a failure outcome
and continues with no delay. -/
def runItems (env : IngestEnv) : Nat → List Product → RunAcc
  | _, [] => { results := [], succ := 0, fail := 0, trace := [] }
  | i, p :: rest =>
    let r := runItems env (i + 1) rest
    match processItem env i p with
    | .ok res =>
      { results := res :: r.results, succ := r.succ + 1, fail := r.fail,
        trace := Event.item i :: ((if rest.isEmpty then [] else [Event.delay]) ++ r.trace) }
    | .error res =>
      { results := res :: r.results, succ := r.succ, fail := r.fail + 1,
        trace := Event.item i :: r.trace }

/-- `ingestAllProducts` (lines 222–323): the fetch oracle is the result
of `getAllProducts`; an empty fetch short-circuits with zero counts, a
fetch rejection is caught by the outer `catch` and also returns a
zeroed summary. -/
def ingestAllProducts (env : IngestEnv)
    (fetchO : Except String (List Product)) : BatchIngestResult :=
  match fetchO with
  | .error msg =>
    { totalProducts := 0, successful := 0, failed := 0, results := [],
      message := "Batch ingestion failed: " ++ msg }
  | .ok [] =>
    { totalProducts := 0, successful := 0, failed := 0, results := [],
      message := "No products found in the API" }
  | .ok prods =>
    let r := runItems env 0 prods
    { totalProducts := prods.length, successful := r.succ, failed := r.fail,
      results := r.results,
      message := "Ingestion complete: " ++ toString r.succ ++ " successful, "
        ++ toString r.fail ++ " failed" }

/-- The event trace of one batch run (empty when the fetch fails or is
empty, since the loop is never entered). -/
def ingestAllTrace (env : IngestEnv)
    (fetchO : Except String (List Product)) : List Event :=
  match fetchO with
  | .error _ => []
  | .ok prods => (runItems env 0 prods).trace

/-- List of records paired with their loop index, starting at `i` —
used to state per-index properties of the run. -/
def enumFrom {α : Type} : Nat → List α → List (Nat × α)
  | _, [] => []
  | i, a :: as => (i, a) :: enumFrom (i + 1) as

/-- The outcome row pushed onto `results` for one item, whether the
iteration succeeded or was caught. -/
def outcomeOf (e : Except IngestResult IngestResult) : IngestResult :=
  match e with
  | .ok r => r
  | .error r => r

def dummyProduct : Product := mkSample "" 0

def dummyResult : IngestResult :=
  { id := "", productName := "", success := false, message := "" }

theorem processItem_ok_success (env : IngestEnv) (i : Nat) (p : Product)
    (r : IngestResult) (h : processItem env i p = .ok r) : r.success = true := by
  unfold processItem at h
  split at h
  · exact absurd h (by simp)
  · split at h
    · exact absurd h (by simp)
    · injection h with h2
      rw [← h2]

theorem processItem_error_success (env : IngestEnv) (i : Nat) (p : Product)
    (r : IngestResult) (h : processItem env i p = .error r) : r.success = false := by
  unfold processItem at h
  split at h
  · injection h with h2; rw [← h2]
  · split at h
    · injection h with h2; rw [← h2]
    · exact absurd h (by simp)

theorem processItem_ok_name (env : IngestEnv) (i : Nat) (p : Product)
    (r : IngestResult) (h : processItem env i p = .ok r) :
    r.productName = p.product_name := by
  unfold processItem at h
  split at h
  · exact absurd h (by simp)
  · split at h
    · exact absurd h (by simp)
    · injection h with h2; rw [← h2]

theorem processItem_error_name (env : IngestEnv) (i : Nat) (p : Product)
    (r : IngestResult) (h : processItem env i p = .error r) :
    r.productName = p.product_name := by
  unfold processItem at h
  split at h
  · injection h with h2; rw [← h2]
  · split at h
    · injection h with h2; rw [← h2]
    · exact absurd h (by simp)

/-- One outcome row is pushed per record. -/
theorem runItems_results_length (env : IngestEnv) :
    ∀ (ps : List Product) (i : Nat),
      (runItems env i ps).results.length = ps.length := by
  intro ps
  induction ps with
  | nil => intro i; rfl
  | cons p rest ih =>
    intro i
    simp only [runItems]
    cases hp : processItem env i p <;> simp [ih]

/-- The two counters partition the records. -/
theorem runItems_succ_add_fail (env : IngestEnv) :
    ∀ (ps : List Product) (i : Nat),
      (runItems env i ps).succ + (runItems env i ps).fail = ps.length := by
  intro ps
  induction ps with
  | nil => intro i; rfl
  | cons p rest ih =>
    intro i
    simp only [runItems]
    cases hp : processItem env i p <;> simp <;> rw [← ih (i + 1)] <;> omega

/-- The failure counter counts exactly the records whose
format/embed/store step fails. -/
theorem runItems_fail_count (env : IngestEnv) :
    ∀ (ps : List Product) (i : Nat),
      (runItems env i ps).fail
        = (enumFrom i ps).countP (fun x => ! itemOk env x.1 x.2) := by
  intro ps
  induction ps with
  | nil => intro i; rfl
  | cons p rest ih =>
    intro i
    simp only [runItems, enumFrom, List.countP_cons]
    cases hp : processItem env i p <;> simp [itemOk, hp, ih (i + 1)]

/-- Outcome `j` belongs to record `j`: same name, and its success flag
reports whether that record's step succeeded. -/
theorem runItems_get (env : IngestEnv) :
    ∀ (ps : List Product) (i j : Nat), j < ps.length →
      ((runItems env i ps).results.getD j dummyResult).productName
          = (ps.getD j dummyProduct).product_name ∧
      ((runItems env i ps).results.getD j dummyResult).success
          = itemOk env (i + j) (ps.getD j dummyProduct) := by
  intro ps
  induction ps with
  | nil => intro i j h; exact absurd h (by simp)
  | cons p rest ih =>
    intro i j hj
    cases j with
    | zero =>
      simp only [runItems]
      cases hp : processItem env i p with
      | ok res =>
        refine ⟨by simpa using processItem_ok_name env i p res hp, ?_⟩
        simp [itemOk, hp, processItem_ok_success env i p res hp]
      | error res =>
        refine ⟨by simpa using processItem_error_name env i p res hp, ?_⟩
        simp [itemOk, hp, processItem_error_success env i p res hp]
    | succ j =>
      have hj' : j < rest.length := by simpa using Nat.lt_of_succ_lt_succ hj
      have heq : i + (j + 1) = i + 1 + j := by omega
      simp only [runItems]
      cases hp : processItem env i p <;>
        (dsimp only; simp only [List.getD_cons_succ]; rw [heq]; exact ih (i + 1) j hj')

/-- C1: on a fetch of `n ≥ 1` records of which exactly `k` have a
failing format/embed/store step, `ingestAllProducts` reports
`totalProducts = n`, `failed = k`, `successful = n - k`, and `results`
holds exactly one outcome per record in fetch order (outcome `j` names
record `j` and its success flag reports record `j`'s step); a failing
record never aborts the loop. -/
theorem ingestAllProducts_partial_failure (env : IngestEnv)
    (prods : List Product) (hne : prods ≠ []) :
    (ingestAllProducts env (.ok prods)).totalProducts = prods.length ∧
    (ingestAllProducts env (.ok prods)).failed
      = (enumFrom 0 prods).countP (fun x => ! itemOk env x.1 x.2) ∧
    (ingestAllProducts env (.ok prods)).successful
      = prods.length - (enumFrom 0 prods).countP (fun x => ! itemOk env x.1 x.2) ∧
    (ingestAllProducts env (.ok prods)).results.length = prods.length ∧
    (∀ j, j < prods.length →
      (((ingestAllProducts env (.ok prods)).results.getD j dummyResult).productName
          = (prods.getD j dummyProduct).product_name ∧
       ((ingestAllProducts env (.ok prods)).results.getD j dummyResult).success
          = itemOk env j (prods.getD j dummyProduct))) := by
  cases prods with
  | nil => exact absurd rfl hne
  | cons p rest =>
    have hfail := runItems_fail_count env (p :: rest) 0
    have hsum := runItems_succ_add_fail env (p :: rest) 0
    have hlen := runItems_results_length env (p :: rest) 0
    refine ⟨rfl, hfail, by simp only [ingestAllProducts]; omega,
      hlen, ?_⟩
    intro j hj
    simpa using runItems_get env (p :: rest) 0 j hj

/-- Concrete oracle environment: the embedding call for record index 1
rejects, everything else resolves. -/
def envRec2Fails : IngestEnv :=
  { embedO := fun i _ => if i = 1 then .error "embedding request failed" else .ok [1, 0],
    storeO := fun _ => .ok (),
    t0 := 5000,
    nowIso := "2026-02-03T10:00:00.000Z" }

/-- Closed instantiation of `ingestAllProducts_partial_failure`: a
fetch of 3 records where record 2's embedding call throws yields
totals 3 / 2 / 1. -/
theorem ingestAllProducts_partial_failure_witness :
    (ingestAllProducts envRec2Fails
        (.ok [mkSample "amoxicillin" 5, mkSample "ibuprofen" 10, mkSample "panadol" 7])).totalProducts = 3 ∧
    (ingestAllProducts envRec2Fails
        (.ok [mkSample "amoxicillin" 5, mkSample "ibuprofen" 10, mkSample "panadol" 7])).successful = 2 ∧
    (ingestAllProducts envRec2Fails
        (.ok [mkSample "amoxicillin" 5, mkSample "ibuprofen" 10, mkSample "panadol" 7])).failed = 1 := by
  have h := ingestAllProducts_partial_failure envRec2Fails
    [mkSample "amoxicillin" 5, mkSample "ibuprofen" 10, mkSample "panadol" 7]
    (by decide)
  refine ⟨h.1, ?_, ?_⟩
  · rw [h.2.2.1]; decide
  · rw [h.2.1]; decide

/-- C6: every invocation of `ingestAllProducts` returns a structured
summary (the model is a total function: the outer catch absorbs a
fetch rejection) satisfying `successful + failed = totalProducts` and
`results.length = totalProducts`; the empty fetch yields all-zero
counts and the explanatory message. -/
theorem ingestAllProducts_invariant (env : IngestEnv)
    (fetchO : Except String (List Product)) :
    (ingestAllProducts env fetchO).successful + (ingestAllProducts env fetchO).failed
      = (ingestAllProducts env fetchO).totalProducts ∧
    (ingestAllProducts env fetchO).results.length
      = (ingestAllProducts env fetchO).totalProducts ∧
    ingestAllProducts env (.ok []) =
      { totalProducts := 0, successful := 0, failed := 0, results := [],
        message := "No products found in the API" } := by
  refine ⟨?_, ?_, rfl⟩
  · cases fetchO with
    | error m => rfl
    | ok prods =>
      cases prods with
      | nil => rfl
      | cons p rest => exact runItems_succ_add_fail env (p :: rest) 0
  · cases fetchO with
    | error m => rfl
    | ok prods =>
      cases prods with
      | nil => rfl
      | cons p rest => exact runItems_results_length env (p :: rest) 0

/-! ## Inter-item delay structure (C4)

`gaps` decomposes an event trace `item 0 :: g₀ ++ item 1 :: g₁ ++ …`
into the chunks `[g₀, g₁, …]` of events sitting between the processing
of consecutive items (and after the last one). -/

def collectGaps : List Event → List Event × List (List Event)
  | [] => ([], [])
  | Event.delay :: rest =>
    let r := collectGaps rest
    (Event.delay :: r.1, r.2)
  | Event.item _ :: rest =>
    let r := collectGaps rest
    ([], r.1 :: r.2)

def gaps (tr : List Event) : List (List Event) := (collectGaps tr).2

/-- A run trace never starts with a delay. -/
theorem collectGaps_run_fst (env : IngestEnv) :
    ∀ (ps : List Product) (i : Nat),
      (collectGaps (runItems env i ps).trace).1 = [] := by
  intro ps i
  cases ps with
  | nil => rfl
  | cons p rest =>
    simp only [runItems]
    cases hp : processItem env i p <;> simp [collectGaps]

/-- Structural step: the gap after item `i` is `[delay]` exactly when
the item succeeded and more items remain; a failed item is followed by
no delay. -/
theorem gaps_run_cons (env : IngestEnv) (i : Nat) (p : Product)
    (rest : List Product) :
    gaps (runItems env i (p :: rest)).trace
      = (if itemOk env i p ∧ ¬rest.isEmpty then [Event.delay] else [])
        :: gaps (runItems env (i + 1) rest).trace := by
  simp only [runItems, gaps]
  cases hp : processItem env i p with
  | ok res =>
    cases hrest : rest.isEmpty <;>
      simp [collectGaps, hrest, itemOk, hp, collectGaps_run_fst env rest (i + 1)]
  | error res =>
    simp [collectGaps, itemOk, hp, collectGaps_run_fst env rest (i + 1)]

/-- One gap per record. -/
theorem gaps_run_length (env : IngestEnv) :
    ∀ (ps : List Product) (i : Nat),
      (gaps (runItems env i ps).trace).length = ps.length := by
  intro ps
  induction ps with
  | nil => intro i; rfl
  | cons p rest ih =>
    intro i
    rw [gaps_run_cons]
    simp [ih (i + 1)]

/-- Per-index form: the gap after item `j` is a delay iff item `j`
succeeded and is not last. -/
theorem gaps_run_get (env : IngestEnv) :
    ∀ (ps : List Product) (i j : Nat), j < ps.length →
      (gaps (runItems env i ps).trace).getD j []
        = (if itemOk env (i + j) (ps.getD j dummyProduct) ∧ j + 1 < ps.length
           then [Event.delay] else []) := by
  intro ps
  induction ps with
  | nil => intro i j h; exact absurd h (by simp)
  | cons p rest ih =>
    intro i j hj
    cases j with
    | zero =>
      rw [gaps_run_cons]
      simp only [List.getD_cons_zero, List.getD_cons_zero, Nat.add_zero,
        List.length_cons]
      by_cases hok : itemOk env i p = true
      · by_cases hrest : rest.isEmpty
        · have h0 : ¬(0 + 1 < rest.length + 1) := by
            simp [List.isEmpty_iff.mp hrest]
          rw [if_neg (fun hc => (hc.2 : ¬rest.isEmpty) hrest),
            if_neg (fun hc => h0 hc.2)]
        · have h0 : 0 + 1 < rest.length + 1 := by
            cases rest with
            | nil => exact absurd rfl hrest
            | cons a l => simp
          rw [if_pos ⟨hok, hrest⟩, if_pos ⟨hok, h0⟩]
      · rw [if_neg (fun hc => hok hc.1), if_neg (fun hc => hok hc.1)]
    | succ j =>
      have hj' : j < rest.length := by simpa using Nat.lt_of_succ_lt_succ hj
      have heq : i + (j + 1) = i + 1 + j := by omega
      rw [gaps_run_cons]
      simp only [List.getD_cons_succ, List.getD_cons_succ, List.length_cons]
      rw [ih (i + 1) j hj', heq]
      simp [Nat.succ_lt_succ_iff]

/-- Concrete oracle environment: the embedding call for record index 0
rejects, everything else resolves. -/
def envFirstFails : IngestEnv :=
  { embedO := fun i _ => if i = 0 then .error "embedding request failed" else .ok [1, 0],
    storeO := fun _ => .ok (),
    t0 := 1000,
    nowIso := "2026-02-03T10:00:00.000Z" }

/-- C4 as stated is false: it asserts an inter-item delay after every
non-last record regardless of success or failure, but in the code the
200 ms `setTimeout` sits inside the `try`, after the success path, so
a record whose embedding call throws is followed immediately by the
next record with no delay.  Concretely: two records where record 0's
embedding call throws give the trace `[item 0, item 1]` with no delay
event at all, although record 0 is not the last record. -/
theorem ingestAll_delay_counterexample :
    ingestAllTrace envFirstFails
        (.ok [mkSample "amoxicillin" 5, mkSample "ibuprofen" 10])
      = [Event.item 0, Event.item 1] ∧
    Event.delay ∉ ingestAllTrace envFirstFails
        (.ok [mkSample "amoxicillin" 5, mkSample "ibuprofen" 10]) ∧
    (ingestAllProducts envFirstFails
        (.ok [mkSample "amoxicillin" 5, mkSample "ibuprofen" 10])).results.map
      (fun r => r.success) = [false, true] := by
  refine ⟨rfl, by decide, rfl⟩

/-- C4 amended: the run inserts the 200 ms delay after a record if and
only if that record's ingestion succeeded and it is not the last
record; after a failed record (and after the last record) the next
step follows with no delay.  Stated on the gap structure of the event
trace: there is one gap per record, and gap `j` is `[delay]` exactly
when record `j` succeeded and `j` is not last, else `[]`. -/
theorem ingestAll_delay_after_success_only (env : IngestEnv)
    (prods : List Product) :
    (gaps (ingestAllTrace env (.ok prods))).length = prods.length ∧
    (∀ j, j < prods.length →
      (gaps (ingestAllTrace env (.ok prods))).getD j []
        = (if itemOk env j (prods.getD j dummyProduct) ∧ j + 1 < prods.length
           then [Event.delay] else [])) := by
  refine ⟨gaps_run_length env prods 0, ?_⟩
  intro j hj
  simpa using gaps_run_get env prods 0 j hj

/-- Closed instantiation of `ingestAll_delay_after_success_only`:
with record 1's embedding failing among three records, the gap after
the successful record 0 is a delay, the gap after the failed record 1
is empty, and the gap after the last record is empty. -/
theorem ingestAll_delay_after_success_only_witness :
    (gaps (ingestAllTrace envRec2Fails
        (.ok [mkSample "amoxicillin" 5, mkSample "ibuprofen" 10, mkSample "panadol" 7]))).getD 0 []
      = [Event.delay] ∧
    (gaps (ingestAllTrace envRec2Fails
        (.ok [mkSample "amoxicillin" 5, mkSample "ibuprofen" 10, mkSample "panadol" 7]))).getD 1 []
      = [] ∧
    (gaps (ingestAllTrace envRec2Fails
        (.ok [mkSample "amoxicillin" 5, mkSample "ibuprofen" 10, mkSample "panadol" 7]))).getD 2 []
      = [] := by
  have h := ingestAll_delay_after_success_only envRec2Fails
    [mkSample "amoxicillin" 5, mkSample "ibuprofen" 10, mkSample "panadol" 7]
  refine ⟨?_, ?_, ?_⟩
  · rw [h.2 0 (by decide)]; decide
  · rw [h.2 1 (by decide)]; decide
  · rw [h.2 2 (by decide)]; decide

/-! ## `ingestProductByQuery` (`ingestorService.ts` lines 330–375)

Unlike the batch loop, the single-item path stores the raw
(uncoerced) price/quantity fields, and builds the point id from the
product name: `id = product_name + "_" + Date.now()`. -/

/-- Payload stored by `ingestProductByQuery` (lines 345–354): raw
price/quantity, `price_updated_at` defaulted to the ISO timestamp. -/
structure QueryPayload where
  product_name : String
  price : JSVal
  quantity : JSVal
  category_name : String
  category_slug : String
  category_id : Int
  price_updated_at : String
  ingested_at : String
deriving DecidableEq, Repr

def mkQueryPayload (p : Product) (nowIso : String) : QueryPayload :=
  { product_name := p.product_name, price := p.price, quantity := p.quantity,
    category_name := p.category_name, category_slug := p.category_slug,
    category_id := p.category_id,
    price_updated_at :=
      match p.price_updated_at with
      | some s => s
      | none => nowIso,
    ingested_at := nowIso }

/-- `ingestProductByQuery(query)`: search the catalog, embed, store;
any rejection lands in the catch, which returns a failure outcome. -/
def ingestProductByQuery (searchO : Except String Product)
    (embedO : String → Except String (List Rat)) (storeO : Except String Unit)
    (t0 : Nat) (nowIso : String) (_query : String) : IngestResult :=
  match searchO with
  | .error msg =>
    { id := "unknown_" ++ toString t0, productName := "Unknown",
      success := false, message := "Failed to ingest product: " ++ msg }
  | .ok p =>
    match embedO (formatProductForEmbedding p) with
    | .error msg =>
      { id := "unknown_" ++ toString t0, productName := "Unknown",
        success := false, message := "Failed to ingest product: " ++ msg }
    | .ok emb =>
      match addChunk (p.product_name ++ "_" ++ toString t0) emb
          (mkQueryPayload p nowIso) storeO with
      | .error msg =>
        { id := "unknown_" ++ toString t0, productName := "Unknown",
          success := false, message := "Failed to ingest product: " ++ msg }
      | .ok _ =>
        { id := p.product_name ++ "_" ++ toString t0, productName := p.product_name,
          success := true,
          message := "Successfully ingested product: " ++ p.product_name }

/-- If a character list has no leading digit run, appending anything
behind a non-digit separator still gives no leading digit run. -/
theorem takeWhile_digit_append_nil (t b : List Char)
    (h : t.takeWhile Char.isDigit = []) :
    (t ++ '_' :: b).takeWhile Char.isDigit = [] := by
  cases t with
  | nil =>
    rw [List.nil_append, List.takeWhile_cons_of_neg (by decide)]
  | cons d t' =>
    by_cases hd : Char.isDigit d
    · rw [List.takeWhile_cons_of_pos hd] at h
      exact absurd h (by simp)
    · rw [List.cons_append, List.takeWhile_cons_of_neg hd]

/-- `jsParseIntChars` is `none` iff no digits follow the optional
whitespace and sign. -/
theorem jsParseIntChars_eq_none_iff (cs : List Char) :
    jsParseIntChars cs = none ↔
      (parseSign (cs.dropWhile Char.isWhitespace)).2.takeWhile Char.isDigit = [] := by
  simp only [jsParseIntChars]
  by_cases hd :
      ((parseSign (cs.dropWhile Char.isWhitespace)).2.takeWhile Char.isDigit).isEmpty
  · simp [hd, List.isEmpty_iff.mp hd]
  · simp only [hd, if_neg]
    constructor
    · intro hcontra; exact absurd hcontra (by simp)
    · intro hnil; exact absurd (by simp [hnil] : ((parseSign
        (cs.dropWhile Char.isWhitespace)).2.takeWhile Char.isDigit).isEmpty = true) hd

/-- Key lemma for C7: a string with no parseable integer run, extended
by an underscore and anything after it, still parses to `NaN`. -/
theorem jsParseIntChars_append_underscore (a b : List Char)
    (h : jsParseIntChars a = none) :
    jsParseIntChars (a ++ '_' :: b) = none := by
  rw [jsParseIntChars_eq_none_iff] at h ⊢
  rw [List.dropWhile_append]
  cases ha : a.dropWhile Char.isWhitespace with
  | nil =>
    rw [ha] at h
    simp only [List.isEmpty_nil, if_true]
    rw [List.dropWhile_cons_of_neg (by decide)]
    simp only [parseSign]
    rw [if_neg (by decide), if_neg (by decide)]
    exact List.takeWhile_cons_of_neg (by decide)
  | cons c t =>
    rw [ha] at h
    rw [if_neg (by simp), List.cons_append]
    simp only [parseSign] at h ⊢
    by_cases hc1 : c = '-'
    · rw [if_pos hc1] at h ⊢
      exact takeWhile_digit_append_nil t b h
    · rw [if_neg hc1] at h ⊢
      by_cases hc2 : c = '+'
      · rw [if_pos hc2] at h ⊢
        exact takeWhile_digit_append_nil t b h
      · rw [if_neg hc2] at h ⊢
        exact takeWhile_digit_append_nil (c :: t) b h

/-- String-level form of the key lemma. -/
theorem jsParseInt_name_underscore_time (s t : String)
    (h : jsParseInt s = none) : jsParseInt (s ++ "_" ++ t) = none := by
  simp only [jsParseInt, String.data_append] at h ⊢
  rw [List.append_assoc]
  exact jsParseIntChars_append_underscore s.data t.data h

/-- C7: for every product found whose `product_name` has no prefix
parseable as a decimal integer, `ingestProductByQuery` records a
failed outcome: the generated id `product_name + "_" + Date.now()`
makes `parseInt(id, 10)` return `NaN`, so `addChunk` throws
`Invalid numeric ID` and the catch returns `success = false` —
whatever the embedding and upsert oracles do. -/
theorem ingestProductByQuery_nonNumericName_fails
    (searchO : Except String Product)
    (embedO : String → Except String (List Rat)) (storeO : Except String Unit)
    (t0 : Nat) (nowIso query : String) (p : Product)
    (hs : searchO = .ok p) (hname : jsParseInt p.product_name = none) :
    (ingestProductByQuery searchO embedO storeO t0 nowIso query).success = false := by
  subst hs
  simp only [ingestProductByQuery]
  cases he : embedO (formatProductForEmbedding p) with
  | error m => rfl
  | ok emb =>
    have hid : jsParseInt (p.product_name ++ "_" ++ toString t0) = none :=
      jsParseInt_name_underscore_time p.product_name (toString t0) hname
    simp only [addChunk, hid]

/-- Closed instantiation of `ingestProductByQuery_nonNumericName_fails`
with the product name `Paracetamol` and all oracles resolving. -/
theorem ingestProductByQuery_nonNumericName_fails_witness :
    (ingestProductByQuery (.ok (mkSample "Paracetamol" 3)) (fun _ => .ok [1, 0])
        (.ok ()) 99 "2026-02-03T10:00:00.000Z" "paracetamol").success = false :=
  ingestProductByQuery_nonNumericName_fails _ _ _ _ _ _ _ rfl (by decide)

/-! ## Retrieval / filter / sort layer (`retrievalService.ts`) -/

/-- A raw Qdrant hit as consumed by `searchMedicines`: numeric point
id, optional payload (accessed with `?.`), similarity score. -/
structure Hit where
  id : Nat
  payload : Option Payload
  score : Rat
deriving DecidableEq, Repr

/-- A query-result row (`RetrievedMedicine`). -/
structure RetrievedMedicine where
  id : String
  product_name : String
  price : Rat
  quantity : Rat
  category_name : String
  category_slug : String
  category_id : Int
  price_updated_at : String
  ingested_at : String
  score : Rat
deriving DecidableEq, Repr

/-- `SearchResult` minus the wall-clock `executionTime` field, which
is `Date.now() - startTime` and lives outside the model. -/
structure SearchResult where
  query : String
  medicines : List RetrievedMedicine
  totalResults : Nat
deriving DecidableEq, Repr

/-- The per-hit mapping of `searchMedicines` (lines 68–79): every
payload field is read with `?.` and defaulted with `||`. -/
def toMedicine (nowIso : String) (h : Hit) : RetrievedMedicine :=
  match h.payload with
  | none =>
    { id := toString h.id, product_name := "Unknown", price := 0, quantity := 0,
      category_name := "Unknown", category_slug := "unknown", category_id := 0,
      price_updated_at := nowIso, ingested_at := nowIso, score := jsOrZero h.score }
  | some pl =>
    { id := toString h.id,
      product_name := jsOrStr pl.product_name "Unknown",
      price := jsOrZero pl.price,
      quantity := jsOrZero pl.quantity,
      category_name := jsOrStr pl.category_name "Unknown",
      category_slug := jsOrStr pl.category_slug "unknown",
      category_id := if pl.category_id = 0 then 0 else pl.category_id,
      price_updated_at := jsOrStr pl.price_updated_at nowIso,
      ingested_at := jsOrStr pl.ingested_at nowIso,
      score := jsOrZero h.score }

/-- `searchMedicines(query, limit)` (lines 54–100): embed the query,
search the store, map the hits; the catch converts any rejection into
a zero-result response carrying the query text. -/
def searchMedicines (embedO : Except String (List Rat))
    (searchO : List Rat → Nat → Except String (List Hit))
    (nowIso : String) (query : String) (limit : Nat) : SearchResult :=
  match embedO with
  | .error _ => { query := query, medicines := [], totalResults := 0 }
  | .ok v =>
    match searchO v limit with
    | .error _ => { query := query, medicines := [], totalResults := 0 }
    | .ok hits =>
      let meds := hits.map (toMedicine nowIso)
      { query := query, medicines := meds, totalResults := meds.length }

/-- C5: `searchMedicines` never throws (it is a total function of its
oracles); it always echoes the query text and reports
`totalResults = medicines.length`; and whenever the embedding call
fails, the store search fails, or the store yields zero hits, it
returns the query text with an empty medicines list and
`totalResults = 0`. -/
theorem searchMedicines_never_throws (embedO : Except String (List Rat))
    (searchO : List Rat → Nat → Except String (List Hit))
    (nowIso query : String) (limit : Nat) :
    (searchMedicines embedO searchO nowIso query limit).query = query ∧
    (searchMedicines embedO searchO nowIso query limit).totalResults
      = (searchMedicines embedO searchO nowIso query limit).medicines.length ∧
    (((∃ m, embedO = .error m) ∨
      (∃ v, embedO = .ok v ∧ ((∃ m, searchO v limit = .error m) ∨ searchO v limit = .ok []))) →
      searchMedicines embedO searchO nowIso query limit
        = { query := query, medicines := [], totalResults := 0 }) := by
  refine ⟨?_, ?_, ?_⟩
  · cases embedO with
    | error m => rfl
    | ok v => cases hs : searchO v limit with
      | error m => simp [searchMedicines, hs]
      | ok hits => simp [searchMedicines, hs]
  · cases embedO with
    | error m => rfl
    | ok v => cases hs : searchO v limit with
      | error m => simp [searchMedicines, hs]
      | ok hits => simp [searchMedicines, hs]
  · rintro (⟨m, hm⟩ | ⟨v, hv, (⟨m, hm⟩ | hm)⟩)
    · rw [hm]; rfl
    · rw [hv]; simp [searchMedicines, hm]
    · rw [hv]; simp [searchMedicines, hm]

/-- Closed instantiation of `searchMedicines_never_throws`: a store
with zero matching vectors yields `totalResults = 0`, `medicines = []`
and the original query, not an exception. -/
theorem searchMedicines_never_throws_witness :
    searchMedicines (.ok [1, 0]) (fun _ _ => .ok []) "2026-02-03T10:00:00.000Z"
        "pain relief" 5
      = { query := "pain relief", medicines := [], totalResults := 0 } :=
  (searchMedicines_never_throws (.ok [1, 0]) (fun _ _ => .ok [])
    "2026-02-03T10:00:00.000Z" "pain relief" 5).2.2
    (Or.inr ⟨[1, 0], rfl, Or.inr rfl⟩)

/-- C8: a record whose API price is the string `"45.50"` is stored by
`ingestAllProducts` with numeric payload price `45.5`, and a retrieval
hit carrying that payload yields a numeric `45.5` in the
`RetrievedMedicine`; invalid or missing price/quantity values coerce
to `0` instead of failing the record, and a quantity string parses via
integer parsing. -/
theorem price_roundtrip (p : Product) (nowIso now2 : String) (hid : Nat)
    (sc : Rat) (hprice : p.price = .str "45.50") :
    (mkPayload p nowIso).price = (91 : Rat) / 2 ∧
    (toMedicine now2
        { id := hid, payload := some (mkPayload p nowIso), score := sc }).price
      = (91 : Rat) / 2 ∧
    (∀ s, jsParseFloat s = none → coercePrice (.str s) = 0) ∧
    coercePrice .undef = 0 ∧
    (∀ s, jsParseInt s = none → coerceQuantity (.str s) = 0) ∧
    coerceQuantity .undef = 0 ∧
    (∀ s n, jsParseInt s = some n → coerceQuantity (.str s) = (n : Rat)) := by
  have hp : (mkPayload p nowIso).price = (91 : Rat) / 2 := by
    show coercePrice p.price = (91 : Rat) / 2
    rw [hprice]
    have hv : coercePrice (JSVal.str "45.50") = Rat.divInt 91 2 := rfl
    rw [hv, Rat.divInt_eq_div]
    norm_num
  refine ⟨hp, ?_, ?_, rfl, ?_, rfl, ?_⟩
  · show jsOrZero (mkPayload p nowIso).price = (91 : Rat) / 2
    rw [hp]
    norm_num [jsOrZero]
  · intro s hs
    simp [coercePrice, jsParseFloat] at hs ⊢
    rw [hs]
  · intro s hs
    simp [coerceQuantity, jsParseInt] at hs ⊢
    rw [hs]
  · intro s n hs
    simp [coerceQuantity, jsParseInt] at hs ⊢
    rw [hs]

/-- Concrete record with string price `"45.50"` and string quantity. -/
def prod4550 : Product :=
  { product_name := "vitamin c", price := .str "45.50", quantity := .str "12",
    category_name := "vitamins", category_slug := "vitamins", category_id := 2,
    price_updated_at := some "2026-01-01T00:00:00.000Z" }

/-- Closed instantiation of `price_roundtrip`. -/
theorem price_roundtrip_witness :
    (mkPayload prod4550 "2026-02-03T10:00:00.000Z").price = (91 : Rat) / 2 ∧
    (toMedicine "2026-02-03T11:00:00.000Z"
        { id := 7, payload := some (mkPayload prod4550 "2026-02-03T10:00:00.000Z"),
          score := 1 }).price = (91 : Rat) / 2 ∧
    coercePrice (.str "free") = 0 := by
  have h := price_roundtrip prod4550 "2026-02-03T10:00:00.000Z"
    "2026-02-03T11:00:00.000Z" 7 1 rfl
  exact ⟨h.1, h.2.1, h.2.2.1 "free" (by decide)⟩

/-- `filterByPriceRange` (`retrievalService.ts` lines 190–198); the JS
defaults are `minPrice = 0`, `maxPrice = Number.MAX_VALUE`. -/
def filterByPriceRange (medicines : List RetrievedMedicine)
    (minPrice maxPrice : Rat) : List RetrievedMedicine :=
  medicines.filter (fun m => minPrice ≤ m.price && m.price ≤ maxPrice)

/-- `filterByAvailability` (lines 206–211). -/
def filterByAvailability (medicines : List RetrievedMedicine)
    (minQuantity : Rat) : List RetrievedMedicine :=
  medicines.filter (fun m => minQuantity ≤ m.quantity)

/-- C10: `filterByPriceRange` returns exactly the records with
`min ≤ price ≤ max` (inclusive on both bounds), in their original
relative order (a sublist of the input), with multiplicities
preserved; it is a pure function of its arguments and consults no
store. -/
theorem filterByPriceRange_spec (meds : List RetrievedMedicine)
    (a b : Rat) :
    (filterByPriceRange meds a b).Sublist meds ∧
    (∀ m, m ∈ filterByPriceRange meds a b ↔
      (m ∈ meds ∧ a ≤ m.price ∧ m.price ≤ b)) ∧
    (∀ m, (filterByPriceRange meds a b).count m
      = if a ≤ m.price ∧ m.price ≤ b then meds.count m else 0) := by
  refine ⟨List.filter_sublist meds, ?_, ?_⟩
  · intro m
    simp [filterByPriceRange, List.mem_filter, and_assoc]
  · intro m
    by_cases hm : a ≤ m.price ∧ m.price ≤ b
    · rw [if_pos hm]
      exact List.count_filter (by simp [hm.1, hm.2])
    · rw [if_neg hm]
      rw [List.count_eq_zero]
      intro hmem
      have := (List.mem_filter.mp hmem).2
      simp at this
      exact hm this

/-! ## `sortMedicines` (`retrievalService.ts` lines 220–231)

`[...medicines].sort(comparator)` is a stable comparison sort on the
numeric comparator `aValue - bValue` (asc) / `bValue - aValue` (desc);
it is modelled as a stable insertion sort on the induced total
preorder `comparator a b ≤ 0`. -/

inductive SortField where
  | price | score | quantity
deriving DecidableEq, Repr

inductive SortOrder where
  | asc | desc
deriving DecidableEq, Repr

def fieldVal : SortField → RetrievedMedicine → Rat
  | .price, m => m.price
  | .score, m => m.score
  | .quantity, m => m.quantity

/-- The comparator passed to `Array.prototype.sort`. -/
def sortCmp (f : SortField) (o : SortOrder) (a b : RetrievedMedicine) : Rat :=
  match o with
  | .desc => fieldVal f b - fieldVal f a
  | .asc => fieldVal f a - fieldVal f b

def sortMedicines (medicines : List RetrievedMedicine)
    (f : SortField) (o : SortOrder) : List RetrievedMedicine :=
  List.insertionSort (fun a b => sortCmp f o a b ≤ 0) medicines

/-- C9: `sortMedicines(·, price, asc)` yields a non-decreasing price
sequence, and on inputs whose prices are pairwise distinct the desc
sort is the exact reverse of the asc sort. -/
theorem sortMedicines_price_spec (meds : List RetrievedMedicine) :
    ((sortMedicines meds .price .asc).map RetrievedMedicine.price).Sorted (· ≤ ·) ∧
    ((meds.map RetrievedMedicine.price).Nodup →
      sortMedicines meds .price .desc = (sortMedicines meds .price .asc).reverse) := by
  haveI hTransA : IsTrans RetrievedMedicine (fun a b => sortCmp .price .asc a b ≤ 0) :=
    ⟨fun a b c hab hbc => by
      simp only [sortCmp, fieldVal, sub_nonpos] at hab hbc ⊢
      exact le_trans hab hbc⟩
  haveI hTotalA : IsTotal RetrievedMedicine (fun a b => sortCmp .price .asc a b ≤ 0) :=
    ⟨fun a b => by
      simp only [sortCmp, fieldVal, sub_nonpos]
      exact le_total a.price b.price⟩
  haveI hTransD : IsTrans RetrievedMedicine (fun a b => sortCmp .price .desc a b ≤ 0) :=
    ⟨fun a b c hab hbc => by
      simp only [sortCmp, fieldVal, sub_nonpos] at hab hbc ⊢
      exact le_trans hbc hab⟩
  haveI hTotalD : IsTotal RetrievedMedicine (fun a b => sortCmp .price .desc a b ≤ 0) :=
    ⟨fun a b => by
      simp only [sortCmp, fieldVal, sub_nonpos]
      exact le_total b.price a.price⟩
  have hsortA : (sortMedicines meds .price .asc).Pairwise
      (fun a b => a.price ≤ b.price) := by
    have := List.sorted_insertionSort (fun a b => sortCmp .price .asc a b ≤ 0) meds
    exact this.imp (fun hab => by
      simpa only [sortCmp, fieldVal, sub_nonpos] using hab)
  have hsortD : (sortMedicines meds .price .desc).Pairwise
      (fun a b => b.price ≤ a.price) := by
    have := List.sorted_insertionSort (fun a b => sortCmp .price .desc a b ≤ 0) meds
    exact this.imp (fun hab => by
      simpa only [sortCmp, fieldVal, sub_nonpos] using hab)
  have hpermA : List.Perm (sortMedicines meds .price .asc) meds :=
    List.perm_insertionSort _ meds
  have hpermD : List.Perm (sortMedicines meds .price .desc) meds :=
    List.perm_insertionSort _ meds
  constructor
  · exact List.pairwise_map.mpr hsortA
  · intro hnd
    have hndA : ((sortMedicines meds .price .asc).map RetrievedMedicine.price).Nodup :=
      ((hpermA.map RetrievedMedicine.price).nodup_iff).mpr hnd
    have hndD : ((sortMedicines meds .price .desc).map RetrievedMedicine.price).Nodup :=
      ((hpermD.map RetrievedMedicine.price).nodup_iff).mpr hnd
    have hneA : (sortMedicines meds .price .asc).Pairwise
        (fun a b => a.price ≠ b.price) := List.pairwise_map.mp hndA
    have hneD : (sortMedicines meds .price .desc).Pairwise
        (fun a b => b.price ≠ a.price) :=
      (List.pairwise_map.mp hndD).imp (fun hab => Ne.symm hab)
    have hstrictA : (sortMedicines meds .price .asc).Pairwise
        (fun a b => a.price < b.price) :=
      (hsortA.and hneA).imp (fun h => lt_of_le_of_ne h.1 h.2)
    have hstrictD : (sortMedicines meds .price .desc).Pairwise
        (fun a b => b.price < a.price) :=
      (hsortD.and hneD).imp (fun h => lt_of_le_of_ne h.1 h.2)
    have hstrictArev : (sortMedicines meds .price .asc).reverse.Pairwise
        (fun a b => b.price < a.price) :=
      List.pairwise_reverse.mpr (hstrictA.imp (fun h => h))
    have hperm : List.Perm (sortMedicines meds .price .desc)
        (sortMedicines meds .price .asc).reverse :=
      hpermD.trans (hpermA.symm.trans (List.reverse_perm _).symm)
    haveI : IsAntisymm RetrievedMedicine (fun a b => b.price < a.price) :=
      ⟨fun a b h1 h2 => absurd (lt_trans h1 h2) (lt_irrefl _)⟩
    exact List.eq_of_perm_of_sorted hperm hstrictD hstrictArev

/-- Concrete query-result rows used for closed instantiations. -/
def mkMed (name : String) (pr : Rat) : RetrievedMedicine :=
  { id := "1", product_name := name, price := pr, quantity := 1,
    category_name := "painkillers", category_slug := "painkillers",
    category_id := 1, price_updated_at := "2026-01-01T00:00:00.000Z",
    ingested_at := "2026-01-01T00:00:00.000Z", score := 1 }

/-- Closed instantiation of `sortMedicines_price_spec` on three rows
with pairwise-distinct prices. -/
theorem sortMedicines_price_spec_witness :
    sortMedicines [mkMed "a" 30, mkMed "b" 10, mkMed "c" 20] .price .desc
      = (sortMedicines [mkMed "a" 30, mkMed "b" 10, mkMed "c" 20] .price .asc).reverse :=
  (sortMedicines_price_spec [mkMed "a" 30, mkMed "b" 10, mkMed "c" 20]).2
    (by decide)
